import Mathlib

/-!
Shallow embedding of `deepchem/models/tf_new_models/graph_topology.py`.

Python floats are idealised as real numbers (`ℝ`); numpy integer arrays as `ℤ`.
A batch of Coulomb matrices of shape `(B, N, N)` (with `N = max_n_atoms`) is a
function `Fin B → Fin N → Fin N → ℝ`.  Python dictionaries are modelled as
partial maps `K → Option V`.
-/

namespace GraphTopologySpec

/-- Embeds `merge_two_dicts(x, y)`: `z = x.copy(); z.update(y); return z`.
The copy/update never touches `x` or `y`; keys of `y` win on collision. -/
def merge_two_dicts {K V : Type} (x y : K → Option V) : K → Option V :=
  fun k =>
    match y k with
    | some v => some v
    | none => x k

/-- Embeds `merge_dicts(l)`: starts from the empty dict and folds
`merge_two_dicts` over the list, so later dictionaries overwrite earlier
ones. -/
def merge_dicts {K V : Type} (l : List (K → Option V)) : K → Option V :=
  l.foldl merge_two_dicts (fun _ => none)

/-- Embeds `step_size = (distance_max - distance_min) / n_distance` from
`DTNNGraphTopology.gauss_expand`.  In Lean, division by `0` yields `0`; the
Python code instead raises `ZeroDivisionError` when `n_distance = 0`, which
`gauss_expand` below models with `Option`. -/
noncomputable def step_size (n : ℕ) (distance_min distance_max : ℝ) : ℝ :=
  (distance_max - distance_min) / (n : ℝ)

/-- Embeds the vector built by `gauss_expand` once `step_size` is defined:
`steps[i] = distance_min + i * step_size` for `i` in `range(n_distance)` and
`out[i] = exp(-(distance - steps[i])^2 / (2 * step_size^2))`. -/
noncomputable def gaussVec (distance : ℝ) (n : ℕ)
    (distance_min distance_max : ℝ) : List ℝ :=
  (List.range n).map fun (i : ℕ) =>
    Real.exp (-(distance - (distance_min + (i : ℝ) * step_size n distance_min distance_max)) ^ 2
      / (2 * step_size n distance_min distance_max ^ 2))

/-- Embeds `DTNNGraphTopology.gauss_expand`.  When `n_distance = 0` the very
first statement, `(distance_max - distance_min) / n_distance`, is a Python
float division by zero and raises `ZeroDivisionError`; this failure is
modelled as `none`.  Otherwise the function returns the Gaussian-expanded
vector. -/
noncomputable def gauss_expand (distance : ℝ) (n : ℕ)
    (distance_min distance_max : ℝ) : Option (List ℝ) :=
  if n = 0 then none else some (gaussVec distance n distance_min distance_max)

namespace DTNN

variable {B N : ℕ}

/-- Embeds line 222: `atom_number = np.asarray(list(map(np.diag, batch)))`,
the raw diagonal of each Coulomb matrix (before the power/round step). -/
noncomputable def atom_number_raw (batch : Fin B → Fin N → Fin N → ℝ)
    (m : Fin B) (i : Fin N) : ℝ :=
  batch m i i

/-- Embeds line 223: `atom_mask = np.sign(atom_number)`, the sign of the raw
diagonal entry (note: taken before the atomic numbers are recovered). -/
noncomputable def atom_mask (batch : Fin B → Fin N → Fin N → ℝ)
    (m : Fin B) (i : Fin N) : ℝ :=
  Real.sign (batch m i i)

/-- Embeds lines 224-225:
`atom_number = np.asarray(np.round(np.power(2 * atom_number, 1 / 2.4)), dtype=int)`,
recovering the integer atomic number from a diagonal entry `c` as
`round((2c)^(1/2.4))`.  (`np.round` rounds halves to even; `Int.round` rounds
halves up; the two agree away from exact halves, which is where all the
claims live.) -/
noncomputable def atom_number (batch : Fin B → Fin N → Fin N → ℝ)
    (m : Fin B) (i : Fin N) : ℤ :=
  round ((2 * batch m i i) ^ ((1 : ℝ) / 2.4))

/-- Embeds lines 226-229: `ZiZj`, the per-molecule outer product of the
recovered atomic-number vector with itself. -/
noncomputable def ZiZj (batch : Fin B → Fin N → Fin N → ℝ)
    (m : Fin B) (i j : Fin N) : ℤ :=
  atom_number batch m i * atom_number batch m j

open Classical in
/-- Embeds the final value of `distance_matrix[im, ir, ie, :]` after the
triple loop of lines 234-245.  The loop visits every index `(im, ir, ie)`
exactly once and overwrites the cell in both branches, so the initial
`np.concatenate` replication is dead; each write reads only the original
`batch` (via the loop iterators, read before the cell's own write), `ZiZj`
and `gauss_expand`, never a previously written cell. -/
noncomputable def distance_matrix (n : ℕ) (distance_min distance_max : ℝ)
    (batch : Fin B → Fin N → Fin N → ℝ) (m : Fin B) (i j : Fin N) : List ℝ :=
  if 0 < batch m i j ∧ i ≠ j then
    gaussVec ((ZiZj batch m i j : ℝ) / batch m i j) n distance_min distance_max
  else
    List.replicate n 0

open Classical in
/-- Embeds the final value of `distance_matrix_mask[im, ir, ie]` after the
triple loop: `1` when `element > 0 and ir != ie`, else `0`. -/
noncomputable def distance_matrix_mask (batch : Fin B → Fin N → Fin N → ℝ)
    (m : Fin B) (i j : Fin N) : ℝ :=
  if 0 < batch m i j ∧ i ≠ j then 1 else 0

/-- Embeds the state of the caller's `batch` array after
`batch_to_feed_dict` returns.  Line 233, `distance_matrix_mask = batch[:]`,
takes a numpy *view* (basic slicing of an ndarray does not copy), so every
mask write of the loop lands in the input array; since the loop writes every
cell exactly once, the input array ends up equal to the mask. -/
noncomputable def final_batch (batch : Fin B → Fin N → Fin N → ℝ)
    (m : Fin B) (i j : Fin N) : ℝ :=
  distance_matrix_mask batch m i j

end DTNN

theorem gaussVec_length (distance : ℝ) (n : ℕ) (distance_min distance_max : ℝ) :
    (gaussVec distance n distance_min distance_max).length = n := by
  rw [gaussVec, List.length_map, List.length_range]

theorem gaussVec_get (distance : ℝ) (n : ℕ) (dmin dmax : ℝ) (i : ℕ) (h : i < n) :
    (gaussVec distance n dmin dmax).get ⟨i, by rw [gaussVec_length]; exact h⟩ =
      Real.exp (-(distance - (dmin + (i : ℝ) * step_size n dmin dmax)) ^ 2
        / (2 * step_size n dmin dmax ^ 2)) := by
  simp [gaussVec, List.get_eq_getElem]

theorem recover_encode (Z : ℕ) :
    round ((2 * (0.5 * (Z : ℝ) ^ (2.4 : ℝ))) ^ ((1 : ℝ) / 2.4)) = Z := by
  have h1 : 2 * (0.5 * (Z : ℝ) ^ (2.4 : ℝ)) = (Z : ℝ) ^ (2.4 : ℝ) := by ring
  have h2 : ((Z : ℝ) ^ (2.4 : ℝ)) ^ ((1 : ℝ) / 2.4) = (Z : ℝ) := by
    rw [← Real.rpow_mul (Nat.cast_nonneg Z),
      show (2.4 : ℝ) * ((1 : ℝ) / 2.4) = 1 by norm_num, Real.rpow_one]
  rw [h1, h2, round_natCast]

/-- C5: atom-number recovery round-trips: for every diagonal entry equal to
`0.5 * Z^2.4` for an integer `Z ≥ 0`, the atomic number recovered by
`DTNNGraphTopology.batch_to_feed_dict` via `round((2c)^(1/2.4))` equals
`Z`. -/
theorem atom_number_roundtrip {B N : ℕ} (batch : Fin B → Fin N → Fin N → ℝ)
    (m : Fin B) (i : Fin N) (Z : ℕ)
    (h : batch m i i = 0.5 * (Z : ℝ) ^ (2.4 : ℝ)) :
    DTNN.atom_number batch m i = Z := by
  rw [DTNN.atom_number, h]
  exact recover_encode Z

/-- Witness for C5 at `Z = 3`. -/
theorem atom_number_roundtrip_witness :
    DTNN.atom_number
      (fun _ _ _ => 0.5 * ((3 : ℕ) : ℝ) ^ (2.4 : ℝ) : Fin 1 → Fin 1 → Fin 1 → ℝ)
      0 0 = 3 :=
  atom_number_roundtrip _ 0 0 3 rfl

/-- C6: for every distance `d` and every `n_distance ≥ 1`, `gauss_expand`
returns the vector whose `i`-th entry is
`exp(-(d - (distance_min + i*step))^2 / (2*step^2))` with
`step = (distance_max - distance_min)/n_distance`, with no normalization
applied. -/
theorem gauss_expand_formula (distance : ℝ) (n : ℕ) (dmin dmax : ℝ)
    (hn : 1 ≤ n) (i : ℕ) (hi : i < n) :
    gauss_expand distance n dmin dmax = some (gaussVec distance n dmin dmax) ∧
    (gaussVec distance n dmin dmax).get ⟨i, by rw [gaussVec_length]; exact hi⟩ =
      Real.exp (-(distance - (dmin + (i : ℝ) * ((dmax - dmin) / (n : ℝ)))) ^ 2
        / (2 * ((dmax - dmin) / (n : ℝ)) ^ 2)) := by
  constructor
  · rw [gauss_expand, if_neg (by omega : ¬ n = 0)]
  · rw [gaussVec_get distance n dmin dmax i hi, step_size]

/-- Witness for C6 at `d = 3`, `n = 2`, bounds `[0, 1]`, index `0`. -/
theorem gauss_expand_formula_witness :
    gauss_expand 3 2 0 1 = some (gaussVec 3 2 0 1) ∧
    (gaussVec 3 2 0 1).get ⟨0, by rw [gaussVec_length]; norm_num⟩ =
      Real.exp (-(3 - (0 + ((0 : ℕ) : ℝ) * ((1 - 0) / ((2 : ℕ) : ℝ)))) ^ 2
        / (2 * ((1 - 0) / ((2 : ℕ) : ℝ)) ^ 2)) :=
  gauss_expand_formula 3 2 0 1 (by norm_num) 0 (by norm_num)

/-- C7: for every `n_distance ≥ 1` and every valid index `k`, evaluating
`gauss_expand` at the `k`-th center `distance_min + k*step` yields exactly
`1` at position `k`, and the output vector always has length exactly
`n_distance`. -/
theorem gauss_expand_peak_and_length (distance : ℝ) (n : ℕ) (dmin dmax : ℝ)
    (k : ℕ) (hk : k < n) :
    (gaussVec distance n dmin dmax).length = n ∧
    gauss_expand (dmin + (k : ℝ) * step_size n dmin dmax) n dmin dmax =
      some (gaussVec (dmin + (k : ℝ) * step_size n dmin dmax) n dmin dmax) ∧
    (gaussVec (dmin + (k : ℝ) * step_size n dmin dmax) n dmin dmax).get
      ⟨k, by rw [gaussVec_length]; exact hk⟩ = 1 := by
  refine ⟨gaussVec_length _ _ _ _, ?_, ?_⟩
  · rw [gauss_expand, if_neg (by omega : ¬ n = 0)]
  · rw [gaussVec_get _ n dmin dmax k hk, sub_self]
    simp

/-- Witness for C7 at `n = 3`, `k = 1`, bounds `[0, 3]`, `d = 5`. -/
theorem gauss_expand_peak_and_length_witness :
    (gaussVec 5 3 0 3).length = 3 ∧
    gauss_expand (0 + ((1 : ℕ) : ℝ) * step_size 3 0 3) 3 0 3 =
      some (gaussVec (0 + ((1 : ℕ) : ℝ) * step_size 3 0 3) 3 0 3) ∧
    (gaussVec (0 + ((1 : ℕ) : ℝ) * step_size 3 0 3) 3 0 3).get
      ⟨1, by rw [gaussVec_length]; norm_num⟩ = 1 :=
  gauss_expand_peak_and_length 5 3 0 3 1 (by norm_num)

/-- C9: `gauss_expand` is not total in `n_distance`: at `n_distance = 0` the
step-size computation divides by zero and the call fails (modelled `none`)
rather than returning an empty vector; for `n_distance ≥ 1` it returns a
result. -/
theorem gauss_expand_zero_fails (distance : ℝ) (dmin dmax : ℝ) :
    gauss_expand distance 0 dmin dmax = none ∧
    ∀ n : ℕ, 1 ≤ n →
      gauss_expand distance n dmin dmax = some (gaussVec distance n dmin dmax) := by
  constructor
  · rw [gauss_expand, if_pos rfl]
  · intro n hn
    rw [gauss_expand, if_neg (by omega : ¬ n = 0)]

/-- Witness for C9 at `d = 1`, bounds `[0, 1]`, with `n = 2` for the total
part. -/
theorem gauss_expand_zero_fails_witness :
    gauss_expand 1 0 0 1 = none ∧ gauss_expand 1 2 0 1 = some (gaussVec 1 2 0 1) :=
  ⟨(gauss_expand_zero_fails 1 0 1).1, (gauss_expand_zero_fails 1 0 1).2 2 (by norm_num)⟩

/-- A 1-molecule, 1-atom batch whose diagonal entry is positive but too
small to round to a nonzero atomic number: `(2c)^(1/2.4) = 1/4`. -/
noncomputable def badBatch : Fin 1 → Fin 1 → Fin 1 → ℝ :=
  fun _ _ _ => ((1 / 4 : ℝ)) ^ ((12 : ℝ) / 5) / 2

/-- Counterexample to C2 as stated: on `badBatch` the recovered atomic
number at position `(0,0)` is `0`, yet the atom mask (the sign of the raw
diagonal, taken before recovery) is `1`, not `0`. -/
theorem atom_mask_not_recovered_indicator :
    DTNN.atom_number badBatch 0 0 = 0 ∧ DTNN.atom_mask badBatch 0 0 = 1 := by
  have hpos : (0 : ℝ) < ((1 / 4 : ℝ)) ^ ((12 : ℝ) / 5) / 2 :=
    div_pos (Real.rpow_pos_of_pos (by norm_num) _) (by norm_num)
  constructor
  · rw [DTNN.atom_number]
    have e1 : 2 * badBatch 0 0 0 = ((1 / 4 : ℝ)) ^ ((12 : ℝ) / 5) := by
      rw [badBatch]; ring
    have e2 : (((1 / 4 : ℝ)) ^ ((12 : ℝ) / 5)) ^ ((1 : ℝ) / 2.4) = (1 / 4 : ℝ) := by
      rw [← Real.rpow_mul (by norm_num),
        show ((12 : ℝ) / 5) * ((1 : ℝ) / 2.4) = 1 by norm_num, Real.rpow_one]
    rw [e1, e2]
    norm_num [round_eq]
  · rw [DTNN.atom_mask]
    exact Real.sign_of_pos hpos

/-- C2 (amended): if every diagonal entry of the batch encodes an atomic
number via the documented convention `c = 0.5 * Z^2.4` with `Z : ℕ`, then
the atom mask is `1` wherever the recovered atomic number is nonzero and
`0` wherever it is zero.  (In general the mask is the sign of the raw
diagonal entry, which can be `1` even when the recovered number rounds to
`0`.) -/
theorem atom_mask_encoded_diag {B N : ℕ} (batch : Fin B → Fin N → Fin N → ℝ)
    (Zf : Fin B → Fin N → ℕ)
    (h : ∀ m i, batch m i i = 0.5 * (Zf m i : ℝ) ^ (2.4 : ℝ))
    (m : Fin B) (i : Fin N) :
    (DTNN.atom_number batch m i ≠ 0 → DTNN.atom_mask batch m i = 1) ∧
    (DTNN.atom_number batch m i = 0 → DTNN.atom_mask batch m i = 0) := by
  have hz : DTNN.atom_number batch m i = Zf m i := by
    rw [DTNN.atom_number, h m i]
    exact recover_encode _
  constructor
  · intro hne
    have hZ : 0 < Zf m i := by
      rcases Nat.eq_zero_or_pos (Zf m i) with h0 | h0
      · exact absurd (by rw [hz, h0, Nat.cast_zero]) hne
      · exact h0
    have hpos : 0 < batch m i i := by
      rw [h m i]
      exact mul_pos (by norm_num) (Real.rpow_pos_of_pos (by exact_mod_cast hZ) _)
    rw [DTNN.atom_mask]
    exact Real.sign_of_pos hpos
  · intro he
    have hZ : Zf m i = 0 := by
      have := hz.symm.trans he
      exact_mod_cast this
    have hzero : batch m i i = 0 := by
      rw [h m i, hZ, Nat.cast_zero, Real.zero_rpow (by norm_num : (2.4 : ℝ) ≠ 0)]
      ring
    rw [DTNN.atom_mask, hzero, Real.sign_zero]

/-- A 1-molecule, 1-atom batch whose diagonal encodes atomic number `2`. -/
noncomputable def encBatch : Fin 1 → Fin 1 → Fin 1 → ℝ :=
  fun _ _ _ => 0.5 * ((2 : ℕ) : ℝ) ^ (2.4 : ℝ)

/-- Witness for the amended C2 on a batch encoding atomic number `2`. -/
theorem atom_mask_encoded_diag_witness :
    (DTNN.atom_number encBatch 0 0 ≠ 0 → DTNN.atom_mask encBatch 0 0 = 1) ∧
    (DTNN.atom_number encBatch 0 0 = 0 → DTNN.atom_mask encBatch 0 0 = 0) :=
  atom_mask_encoded_diag encBatch (fun _ _ => 2) (fun _ _ => rfl) 0 0

/-- A 1-molecule, 2-atom batch whose off-diagonal Coulomb entries are `-1`
(nonzero but not positive) and whose diagonal is `0.5`. -/
noncomputable def negBatch : Fin 1 → Fin 2 → Fin 2 → ℝ :=
  fun _ i j => if i = j then 0.5 else -1

/-- Counterexample to C3 as stated: on `negBatch` the off-diagonal pair
`(0,1)` has the nonzero input value `-1`, yet the distance-mask entry is
`0`, not `1` (the code's branch condition is `element > 0`, not
`element != 0`). -/
theorem negative_offdiagonal_not_expanded :
    (0 : Fin 2) ≠ 1 ∧ negBatch 0 0 1 ≠ 0 ∧
    DTNN.distance_matrix_mask negBatch 0 0 1 = 0 := by
  have h01 : ¬ ((0 : Fin 2) = 1) := by decide
  have hval : negBatch 0 0 1 = -1 := by rw [negBatch, if_neg h01]
  refine ⟨h01, by rw [hval]; norm_num, ?_⟩
  rw [DTNN.distance_matrix_mask,
    if_neg (fun hx => absurd hx.1 (by rw [hval]; norm_num))]

/-- C3 (amended): for every molecule `m` and off-diagonal pair `(i,j)` with
`i ≠ j` whose input Coulomb value `v` is *positive* (not merely nonzero),
`batch_to_feed_dict` sets the distance-mask entry to `1` and the expanded
feature vector to `gauss_expand(ZiZj[m,i,j]/v, n_distance, distance_min,
distance_max)`, where `ZiZj` is the outer product of the recovered
atomic-number vector with itself. -/
theorem positive_offdiagonal_expanded {B N : ℕ} (n : ℕ) (dmin dmax : ℝ)
    (batch : Fin B → Fin N → Fin N → ℝ) (m : Fin B) (i j : Fin N)
    (hn : n ≠ 0) (hij : i ≠ j) (hv : 0 < batch m i j) :
    DTNN.distance_matrix_mask batch m i j = 1 ∧
    gauss_expand ((DTNN.ZiZj batch m i j : ℝ) / batch m i j) n dmin dmax =
      some (DTNN.distance_matrix n dmin dmax batch m i j) := by
  constructor
  · rw [DTNN.distance_matrix_mask, if_pos ⟨hv, hij⟩]
  · rw [DTNN.distance_matrix, if_pos ⟨hv, hij⟩, gauss_expand, if_neg hn]

/-- A 1-molecule, 2-atom batch all of whose entries are `1`. -/
noncomputable def oneBatch : Fin 1 → Fin 2 → Fin 2 → ℝ :=
  fun _ _ _ => 1

/-- Witness for the amended C3 on `oneBatch` at the off-diagonal `(0,1)`. -/
theorem positive_offdiagonal_expanded_witness :
    DTNN.distance_matrix_mask oneBatch 0 0 1 = 1 ∧
    gauss_expand ((DTNN.ZiZj oneBatch 0 0 1 : ℝ) / oneBatch 0 0 1) 2 0 1 =
      some (DTNN.distance_matrix 2 0 1 oneBatch 0 0 1) :=
  positive_offdiagonal_expanded 2 0 1 oneBatch 0 0 1 (by norm_num)
    (by decide) one_pos

/-- C4: for every molecule `m` and every pair `(i,j)` on the diagonal or
with input Coulomb value `≤ 0`, `batch_to_feed_dict` returns an all-zero
expanded feature vector and a distance-mask entry of `0`; such inputs are
never rejected as errors (the embedded functions are total on them). -/
theorem nonpositive_or_diagonal_zeroed {B N : ℕ} (n : ℕ) (dmin dmax : ℝ)
    (batch : Fin B → Fin N → Fin N → ℝ) (m : Fin B) (i j : Fin N)
    (h : i = j ∨ batch m i j ≤ 0) :
    DTNN.distance_matrix n dmin dmax batch m i j = List.replicate n 0 ∧
    DTNN.distance_matrix_mask batch m i j = 0 := by
  have hc : ¬ (0 < batch m i j ∧ i ≠ j) := by
    rcases h with h | h
    · exact fun hx => hx.2 h
    · exact fun hx => absurd hx.1 (not_lt.mpr h)
  rw [DTNN.distance_matrix, if_neg hc, DTNN.distance_matrix_mask, if_neg hc]
  exact ⟨rfl, rfl⟩

/-- Witness for C4 on the diagonal cell `(0,0)` of `oneBatch`. -/
theorem nonpositive_or_diagonal_zeroed_witness :
    DTNN.distance_matrix 2 0 1 oneBatch 0 0 0 = List.replicate 2 0 ∧
    DTNN.distance_matrix_mask oneBatch 0 0 0 = 0 :=
  nonpositive_or_diagonal_zeroed 2 0 1 oneBatch 0 0 0 (Or.inl rfl)

/-- C10: if every Coulomb matrix in the batch is symmetric then the
expanded distance tensor and the distance mask are symmetric in the
atom-pair indices. -/
theorem dtnn_distance_symmetric {B N : ℕ} (n : ℕ) (dmin dmax : ℝ)
    (batch : Fin B → Fin N → Fin N → ℝ)
    (hsym : ∀ (m : Fin B) (i j : Fin N), batch m i j = batch m j i)
    (m : Fin B) (i j : Fin N) :
    DTNN.distance_matrix n dmin dmax batch m i j =
      DTNN.distance_matrix n dmin dmax batch m j i ∧
    DTNN.distance_matrix_mask batch m i j =
      DTNN.distance_matrix_mask batch m j i := by
  have hcond : (0 < batch m i j ∧ i ≠ j) ↔ (0 < batch m j i ∧ j ≠ i) := by
    rw [hsym m i j, ne_comm]
  constructor
  · rw [DTNN.distance_matrix, DTNN.distance_matrix]
    by_cases hc : 0 < batch m i j ∧ i ≠ j
    · rw [if_pos hc, if_pos (hcond.mp hc), DTNN.ZiZj, DTNN.ZiZj,
        mul_comm, hsym m i j]
    · rw [if_neg hc, if_neg (fun hx => hc (hcond.mpr hx))]
  · rw [DTNN.distance_matrix_mask, DTNN.distance_matrix_mask]
    by_cases hc : 0 < batch m i j ∧ i ≠ j
    · rw [if_pos hc, if_pos (hcond.mp hc)]
    · rw [if_neg hc, if_neg (fun hx => hc (hcond.mpr hx))]

/-- Witness for C10 on the (constant, hence symmetric) `oneBatch`. -/
theorem dtnn_distance_symmetric_witness :
    DTNN.distance_matrix 2 0 1 oneBatch 0 0 1 =
      DTNN.distance_matrix 2 0 1 oneBatch 0 1 0 ∧
    DTNN.distance_matrix_mask oneBatch 0 0 1 =
      DTNN.distance_matrix_mask oneBatch 0 1 0 :=
  dtnn_distance_symmetric 2 0 1 oneBatch (fun _ _ _ => rfl) 0 0 1

/-- A 1-molecule, 1-atom batch whose diagonal entry is `0.5` (the encoding
of atomic number `1`). -/
noncomputable def halfBatch : Fin 1 → Fin 1 → Fin 1 → ℝ :=
  fun _ _ _ => 0.5

/-- C1 fails on the code: `distance_matrix_mask = batch[:]` takes a numpy
view of the input, so the mask-writing loop mutates the caller's batch.  On
`halfBatch` the final state of the input array differs from the input at
cell `(0,0,0)`: the diagonal `0.5` is overwritten with the mask value
`0`. -/
theorem batch_mutation_bug :
    DTNN.final_batch halfBatch 0 0 0 ≠ halfBatch 0 0 0 := by
  rw [DTNN.final_batch, DTNN.distance_matrix_mask,
    if_neg (fun hx => hx.2 rfl)]
  rw [halfBatch]
  norm_num

theorem foldl_merge_apply {K V : Type} (l : List (K → Option V))
    (a : K → Option V) (k : K) :
    l.foldl merge_two_dicts a k =
      match l.foldl merge_two_dicts (fun _ => none) k with
      | some v => some v
      | none => a k := by
  induction l generalizing a with
  | nil => rfl
  | cons d t ih =>
      rw [List.foldl_cons, List.foldl_cons, ih (merge_two_dicts a d),
        ih (merge_two_dicts (fun _ => none) d)]
      cases t.foldl merge_two_dicts (fun _ => none) k with
      | some v => rfl
      | none =>
          show merge_two_dicts a d k =
            match merge_two_dicts (fun _ => none) d k with
            | some v => some v
            | none => a k
          rw [merge_two_dicts, merge_two_dicts]
          cases d k <;> rfl

theorem merge_dicts_cons {K V : Type} (d : K → Option V)
    (t : List (K → Option V)) (k : K) :
    merge_dicts (d :: t) k =
      match merge_dicts t k with
      | some v => some v
      | none => d k := by
  rw [merge_dicts, List.foldl_cons, foldl_merge_apply, merge_dicts]
  cases t.foldl merge_two_dicts (fun _ => none) k with
  | some v => rfl
  | none =>
      show merge_two_dicts (fun _ => none) d k = d k
      rw [merge_two_dicts]
      cases d k <;> rfl

theorem merge_dicts_eq_none_iff {K V : Type} (l : List (K → Option V)) (k : K) :
    merge_dicts l k = none ↔ ∀ d ∈ l, d k = none := by
  induction l with
  | nil => simp [merge_dicts]
  | cons d t ih =>
      rw [merge_dicts_cons]
      cases ht : merge_dicts t k with
      | some v =>
          simp only [List.mem_cons]
          constructor
          · intro h; exact absurd h (by simp)
          · intro h
            have : merge_dicts t k = none := ih.mpr fun e he => h e (Or.inr he)
            rw [ht] at this
            exact absurd this (by simp)
      | none =>
          simp only [List.mem_cons]
          constructor
          · intro h e he
            rcases he with he | he
            · rw [he]; exact h
            · exact (ih.mp ht) e he
          · intro h; exact h d (Or.inl rfl)

/-- C8: for every list of dictionaries, `merge_dicts` returns a dictionary
whose key set is the union of the input key sets, and whose value at each
key comes from the last dictionary in the list containing that key
(last-write-wins on collision).  The embedding is a pure fold, mirroring
that `merge_two_dicts` copies before updating and so never modifies its
inputs. -/
theorem merge_dicts_union_last_write {K V : Type}
    (l : List (K → Option V)) (k : K) :
    ((merge_dicts l k).isSome ↔ ∃ d ∈ l, (d k).isSome) ∧
    (∀ (l₁ : List (K → Option V)) (d : K → Option V) l₂,
      l = l₁ ++ d :: l₂ → (d k).isSome → (∀ e ∈ l₂, e k = none) →
      merge_dicts l k = d k) := by
  constructor
  · constructor
    · intro h
      by_contra hx
      push_neg at hx
      have hall : ∀ d ∈ l, d k = none := fun d hd =>
        Option.not_isSome_iff_eq_none.mp (hx d hd)
      rw [(merge_dicts_eq_none_iff l k).mpr hall] at h
      exact absurd h (by simp)
    · rintro ⟨d, hd, hsome⟩
      by_contra h
      have hnone : merge_dicts l k = none := Option.not_isSome_iff_eq_none.mp h
      have := (merge_dicts_eq_none_iff l k).mp hnone d hd
      rw [this] at hsome
      exact absurd hsome (by simp)
  · intro l₁ d l₂ hl hd hl₂
    subst hl
    induction l₁ with
    | nil =>
        rw [List.nil_append, merge_dicts_cons,
          (merge_dicts_eq_none_iff l₂ k).mpr hl₂]
    | cons e t ih =>
        rw [List.cons_append, merge_dicts_cons, ih]
        obtain ⟨v, hv⟩ := Option.isSome_iff_exists.mp hd
        rw [hv]

/-- A concrete dictionary mapping `0 ↦ 1`. -/
def dictA : ℕ → Option ℕ := fun k => if k = 0 then some 1 else none

/-- A concrete dictionary mapping `0 ↦ 2`. -/
def dictB : ℕ → Option ℕ := fun k => if k = 0 then some 2 else none

/-- Witness for C8: merging `[dictA, dictB]` at the colliding key `0`
yields `dictB 0` (the later value), and the merged key is present. -/
theorem merge_dicts_union_last_write_witness :
    merge_dicts [dictA, dictB] 0 = dictB 0 ∧
    (merge_dicts [dictA, dictB] 0).isSome :=
  ⟨(merge_dicts_union_last_write [dictA, dictB] 0).2 [dictA] dictB [] rfl rfl
      (fun e he => absurd he (List.not_mem_nil e)),
    (merge_dicts_union_last_write [dictA, dictB] 0).1.mpr
      ⟨dictB, by simp, rfl⟩⟩

end GraphTopologySpec
